import Mathlib

/-!
Verification of the LaSRC per-pixel aerosol retriever
(`lasrc/c_version/src/subaeroret.c`), functions `subaeroret_new` and
`subaeroret`.

The atmospheric-correction kernel (`atmcorlamb2_new` / `atmcorlamb2`, defined
in `lut_subr.c`, not part of the sources at hand) is abstracted as a function
`rho : ℝ → ℕ → ℝ` from (AOT-550nm candidate, band index) to the Lambertian
surface reflectance it writes into `roslamb`: inside one retrieval call every
other argument of the kernel call (`tgo_arr`, the coefficient arrays,
`troatm`, `eps`, ...) is fixed, and the call sites vary only `raot550nm` and
`ib`.  For the legacy `subaeroret`, whose kernel can fail, the kernel is
`ℝ → ℕ → Option ℝ` with `none` standing for an `ERROR` return of
`atmcorlamb2`.

C `float`/`double` values are modelled as real numbers; C `int` indices as
naturals (they stay non-negative throughout the modelled code paths, and the
one place where the C int arithmetic can go negative, `MAX((iaot2-3), 0)`, is
modelled with the corresponding truncation made explicit in the theorems).
-/

namespace LaSRC

noncomputable section

/-- Satellites dispatched on by `subaeroret_new` (subaeroret.c lines 107-124).
The function handles `SAT_LANDSAT_8`, `SAT_LANDSAT_9` and `SAT_SENTINEL_2`. -/
inductive Sat where
  | landsat8
  | landsat9
  | sentinel2

/-- Modelled from the spec: `NAOT_VALS` is defined in the missing header
`lut_subr.h`; the spec fixes the AOT grid at 22 values (indexed 0..21), and
the `aot550nm` initializer in subaeroret.c indeed lists 22 values. -/
def NAOT_VALS : ℕ := 22

/-- Modelled from the spec: `DNL_BAND1` from the missing Landsat band header;
the spec's §4.4 table gives `start_band = 0` for Landsat-8/9. -/
def DNL_BAND1 : ℕ := 0

/-- Modelled from the spec: `DNL_BAND7` from the missing Landsat band header;
the spec's §4.4 table gives `end_band = 6` for Landsat-8/9. -/
def DNL_BAND7 : ℕ := 6

/-- Modelled from the spec: `DNS_BAND1` from the missing Sentinel band header;
the spec's §4.4 table gives `start_band = 0` for Sentinel-2. -/
def DNS_BAND1 : ℕ := 0

/-- Modelled from the spec: `DNS_BAND12` from the missing Sentinel band
header in the default build (bands 9 and 10 skipped); the spec's §4.4 table
gives `end_band = 10` for default Sentinel-2, matching the 11-entry
`sentinel_tth` initializer of subaeroret.c. -/
def DNS_BAND12 : ℕ := 10

/-- The `aot550nm[NAOT_VALS]` array of subaeroret.c (lines 102-104), as a
function on the index; indices past the array are never read by the modelled
code (the C code would have undefined behaviour there). -/
def aot550nm : ℕ → ℝ
  | 0 => 0.01
  | 1 => 0.05
  | 2 => 0.1
  | 3 => 0.15
  | 4 => 0.2
  | 5 => 0.3
  | 6 => 0.4
  | 7 => 0.6
  | 8 => 0.8
  | 9 => 1.0
  | 10 => 1.2
  | 11 => 1.4
  | 12 => 1.6
  | 13 => 1.8
  | 14 => 2.0
  | 15 => 2.3
  | 16 => 2.6
  | 17 => 3.0
  | 18 => 3.5
  | 19 => 4.0
  | 20 => 4.5
  | 21 => 5.0
  | _ => 0

/-- `landsat_tth` (subaeroret.c lines 71-72). -/
def landsat_tth : List ℝ := [1.0e-03, 1.0e-03, 0.0, 1.0e-03, 0.0, 0.0, 1.0e-04, 0.0]

/-- `landsat_tth_water` (subaeroret.c lines 73-75). -/
def landsat_tth_water : List ℝ :=
  [1.0e-03, 1.0e-03, 0.0, 1.0e-03, 1.0e-03, 0.0, 1.0e-04, 0.0]

/-- `sentinel_tth` in the default build, bands 9 and 10 skipped
(subaeroret.c lines 94-95). -/
def sentinel_tth : List ℝ :=
  [1.0e-03, 1.0e-03, 0.0, 1.0e-03, 0.0, 0.0, 0.0, 0.0, 0.0, 0.0, 1.0e-04]

/-- `sentinel_tth_water` in the default build (subaeroret.c lines 96-98). -/
def sentinel_tth_water : List ℝ :=
  [1.0e-03, 0.0, 0.0, 1.0e-03, 0.0, 0.0, 0.0, 0.0, 1.0e-3, 0.0, 1.0e-4]

/-- The `tth` array selected by the satellite/water dispatch of
subaeroret.c lines 107-124. -/
def tthTable (sat : Sat) (water : Bool) : List ℝ :=
  match sat with
  | .landsat8 | .landsat9 => if water then landsat_tth_water else landsat_tth
  | .sentinel2 => if water then sentinel_tth_water else sentinel_tth

/-- Read `tth[b]` (out-of-range reads do not occur in the modelled paths). -/
def tthv (sat : Sat) (water : Bool) (b : ℕ) : ℝ := (tthTable sat water).getD b 0

/-- `start_band` of the satellite dispatch (subaeroret.c lines 113, 122). -/
def startBand (sat : Sat) : ℕ :=
  match sat with
  | .landsat8 | .landsat9 => DNL_BAND1
  | .sentinel2 => DNS_BAND1

/-- `end_band` of the satellite dispatch (subaeroret.c lines 114, 123). -/
def endBand (sat : Sat) : ℕ :=
  match sat with
  | .landsat8 | .landsat9 => DNL_BAND7
  | .sentinel2 => DNS_BAND12

/-- The band indices visited by `for (ib = start_band; ib <= end_band; ib++)`. -/
def bandList (sat : Sat) : List ℕ :=
  List.range' (startBand sat) (endBand sat + 1 - startBand sat)

/-- The per-pixel inputs of one retrieval call, kernel aside. -/
structure Pix where
  sat : Sat
  water : Bool
  iband1 : ℕ
  erelc : ℕ → ℝ
  iaots0 : ℕ

/-- What one full residual computation of subaeroret.c produces: the value
stored in `*residual` (or `residualm`), the band count `nbval`, and the
`testth` flag. -/
structure EvalOut where
  residual : ℝ
  nbval : ℕ
  testth : Bool

/-- One loop-body step of the water residual accumulation
(subaeroret.c lines 155-171): `(sum, nbval, testth)` is threaded. -/
def waterAccum (p : Pix) (rho : ℝ → ℕ → ℝ) (a : ℝ) (acc : ℝ × ℕ × Bool) (ib : ℕ) :
    ℝ × ℕ × Bool :=
  if 0 < p.erelc ib then
    (acc.1 + rho a ib * rho a ib, acc.2.1 + 1,
     acc.2.2 || decide (rho a ib - tthv p.sat p.water ib < 0))
  else acc

/-- One loop-body step of the land residual accumulation
(subaeroret.c lines 175-192). -/
def landAccum (p : Pix) (rho : ℝ → ℕ → ℝ) (a : ℝ) (ros1 : ℝ) (acc : ℝ × ℕ × Bool)
    (ib : ℕ) : ℝ × ℕ × Bool :=
  if ib ≠ p.iband1 ∧ 0 < p.erelc ib then
    (acc.1 + (rho a ib - p.erelc ib * ros1) * (rho a ib - p.erelc ib * ros1),
     acc.2.1 + 1,
     acc.2.2 || decide (rho a ib - tthv p.sat p.water ib < 0))
  else acc

/-- The full residual computation at one AOT candidate `a`
(subaeroret.c lines 141-194, identical in the loop body lines 211-264):
band `iband1` is corrected first, `testth` is primed from it, then the band
loop accumulates, and finally `*residual = sqrt(*residual)/nbval`. -/
def evalResid (p : Pix) (rho : ℝ → ℕ → ℝ) (a : ℝ) : EvalOut :=
  let ros1 := rho a p.iband1
  let t0 := decide (ros1 - tthv p.sat p.water p.iband1 < 0)
  let z :=
    if p.water then (bandList p.sat).foldl (waterAccum p rho a) (0, 0, t0)
    else (bandList p.sat).foldl (landAccum p rho a ros1) (0, 0, t0)
  { residual := Real.sqrt z.1 / z.2.1, nbval := z.2.1, testth := z.2.2 }

/-- The refinement-time residual computation at the candidate `a`
(subaeroret.c lines 299-342): band `iband1` is handled before the loop (its
square enters only when `water && erelc[iband1] > 0`), and the loop then
skips `iband1` in both the water and the land branch. -/
def evalResidRefine (p : Pix) (rho : ℝ → ℕ → ℝ) (a : ℝ) : EvalOut :=
  let ros1 := rho a p.iband1
  let t0 := decide (ros1 - tthv p.sat p.water p.iband1 < 0)
  let init : ℝ × ℕ × Bool :=
    if p.water = true ∧ 0 < p.erelc p.iband1 then (ros1 * ros1, 1, t0) else (0, 0, t0)
  let z := (bandList p.sat).foldl (fun acc ib =>
    if ib ≠ p.iband1 ∧ 0 < p.erelc ib then
      (acc.1 + (if p.water then rho a ib * rho a ib
                else (rho a ib - p.erelc ib * ros1) * (rho a ib - p.erelc ib * ros1)),
       acc.2.1 + 1,
       acc.2.2 || decide (rho a ib - tthv p.sat p.water ib < 0))
    else acc) init
  { residual := Real.sqrt z.1 / z.2.1, nbval := z.2.1, testth := z.2.2 }

/-- The mutable locals of the `while` search loop of subaeroret.c
(lines 196-268).  `iaot` is the post-increment loop counter; `raot550nm` the
grid AOT value most recently evaluated; `residual`/`testth` the outcome of
that evaluation; `residual1`/`raot1`/`iaot1` and `residual2`/`raot2`/`iaot2`
the shifted history. -/
structure LoopState where
  iaot : ℕ
  raot550nm : ℝ
  residual : ℝ
  testth : Bool
  residual1 : ℝ
  raot1 : ℝ
  iaot1 : ℕ
  residual2 : ℝ
  raot2 : ℝ
  iaot2 : ℕ

/-- The `while` guard of subaeroret.c line 198:
`(iaot < NAOT_VALS) && (*residual < residual1) && (!testth)`. -/
def searchCond (st : LoopState) : Prop :=
  st.iaot < NAOT_VALS ∧ st.residual < st.residual1 ∧ st.testth = false

instance (st : LoopState) : Decidable (searchCond st) := by
  unfold searchCond; infer_instance

/-- Build the next loop state from the evaluation `e` of the grid point
`a = aot550nm[iaot]`: the history shift and reassignments of subaeroret.c
lines 200-207 followed by the `iaot++` of line 267. -/
def stepWith (st : LoopState) (a : ℝ) (e : EvalOut) : LoopState :=
  { iaot := st.iaot + 1
    raot550nm := a
    residual := e.residual
    testth := e.testth
    residual1 := st.residual
    raot1 := st.raot550nm
    iaot1 := st.iaot
    residual2 := st.residual1
    raot2 := st.raot1
    iaot2 := st.iaot1 }

/-- One iteration of the search loop of `subaeroret_new`. -/
def stepSt (p : Pix) (rho : ℝ → ℕ → ℝ) (st : LoopState) : LoopState :=
  stepWith st (aot550nm st.iaot) (evalResid p rho (aot550nm st.iaot))

/-- The search loop of `subaeroret_new` (subaeroret.c lines 196-268), run to
its exit. -/
def searchLoop (p : Pix) (rho : ℝ → ℕ → ℝ) (st : LoopState) : LoopState :=
  if h : searchCond st then searchLoop p rho (stepSt p rho st) else st
termination_by NAOT_VALS - st.iaot
decreasing_by
  simp only [stepSt, stepWith]
  have h1 := h.1
  omega

/-- The state at the first evaluation of the `while` guard, built from the
initialisation of subaeroret.c lines 128-139, the first residual evaluation
`e` at `aot550nm[*iaots]`, and the `iaot++` of line 197. -/
def initWith (p : Pix) (e : EvalOut) : LoopState :=
  { iaot := p.iaots0 + 1
    raot550nm := aot550nm p.iaots0
    residual := e.residual
    testth := e.testth
    residual1 := 2000.0
    raot1 := 0.0001
    iaot1 := 0
    residual2 := 1000.0
    raot2 := 1.0e-06
    iaot2 := 0 }

/-- The initial loop state of `subaeroret_new`. -/
def initState (p : Pix) (rho : ℝ → ℕ → ℝ) : LoopState :=
  initWith p (evalResid p rho (aot550nm p.iaots0))

/-- `xa` of the parabolic refinement (subaeroret.c line 291), computed from
the loop-exit state. -/
def xaOf (st : LoopState) : ℝ := (st.residual1 - st.residual) * (st.raot2 - st.raot550nm)

/-- `xb` of the parabolic refinement (subaeroret.c line 292). -/
def xbOf (st : LoopState) : ℝ := (st.residual2 - st.residual) * (st.raot1 - st.raot550nm)

/-- `raotmin` as first computed by the parabolic fit (subaeroret.c line 293). -/
def raotminOf (st : LoopState) : ℝ :=
  0.5 * (xaOf st * (st.raot2 + st.raot550nm) - xbOf st * (st.raot1 + st.raot550nm)) /
    (xaOf st - xbOf st)

/-- `raotmin` after the range validation of subaeroret.c lines 296-297:
out-of-range candidates are replaced by `*raot = raot550nm`. -/
def raotminClamped (st : LoopState) : ℝ :=
  if raotminOf st < 0.01 ∨ raotminOf st > 4.0 then st.raot550nm else raotminOf st

/-- The outputs of one retrieval call: `*raot`, `*residual` and the updated
`*iaots`. -/
structure RetOut where
  raot : ℝ
  residual : ℝ
  iaots : ℕ

/-- The tail of the refinement branch (subaeroret.c lines 343-367), given the
refinement residual `rm` evaluated at the accepted candidate `a'`
(`raotsaved` equals `raot550nm` there, line 289-290). -/
def refinePost (p : Pix) (st : LoopState) (a' : ℝ) (rm : ℝ) : RetOut :=
  let s1 : ℝ × ℝ := if rm > st.residual then (st.residual, st.raot550nm) else (rm, a')
  let s2 : ℝ × ℝ := if s1.1 > st.residual1 then (st.residual1, st.raot1) else s1
  let s3 : ℝ × ℝ := if s2.1 > st.residual2 then (st.residual2, st.raot2) else s2
  { raot := s3.2
    residual := s3.1
    iaots := if p.water = true ∧ st.iaot = 1 then 0 else st.iaot2 - 3 }

/-- The whole refinement branch (subaeroret.c lines 277-367). -/
def refineBranch (p : Pix) (rho : ℝ → ℕ → ℝ) (st : LoopState) : RetOut :=
  refinePost p st (raotminClamped st)
    (evalResidRefine p rho (raotminClamped st)).residual

/-- `subaeroret_new` (subaeroret.c lines 29-369): initial evaluation, search
loop, then either the `iaot == 1` early exit (line 272-275, `*iaots` is left
unchanged) or the refinement branch. -/
def subaeroretNew (p : Pix) (rho : ℝ → ℕ → ℝ) : RetOut :=
  let st := searchLoop p rho (initState p rho)
  if st.iaot = 1 then { raot := st.raot550nm, residual := st.residual, iaots := p.iaots0 }
  else refineBranch p rho st

/-! ## The legacy `subaeroret` (subaeroret.c lines 388-857)

The body is line-for-line the body of `subaeroret_new`, except that every
kernel call is the fallible `atmcorlamb2` and a failing call makes the whole
function `return (ERROR)` immediately.  `none` models an `ERROR` return. -/

/-- Water accumulation step with the fallible kernel (subaeroret.c
lines 569-595): a failing call aborts the pixel. -/
def waterAccumL (p : Pix) (k : ℝ → ℕ → Option ℝ) (a : ℝ) (acc : ℝ × ℕ × Bool)
    (ib : ℕ) : Option (ℝ × ℕ × Bool) :=
  if 0 < p.erelc ib then
    match k a ib with
    | none => none
    | some r =>
      some (acc.1 + r * r, acc.2.1 + 1, acc.2.2 || decide (r - tthv p.sat p.water ib < 0))
  else some acc

/-- Land accumulation step with the fallible kernel (subaeroret.c
lines 599-626). -/
def landAccumL (p : Pix) (k : ℝ → ℕ → Option ℝ) (a : ℝ) (ros1 : ℝ)
    (acc : ℝ × ℕ × Bool) (ib : ℕ) : Option (ℝ × ℕ × Bool) :=
  if ib ≠ p.iband1 ∧ 0 < p.erelc ib then
    match k a ib with
    | none => none
    | some r =>
      some (acc.1 + (r - p.erelc ib * ros1) * (r - p.erelc ib * ros1), acc.2.1 + 1,
            acc.2.2 || decide (r - tthv p.sat p.water ib < 0))
  else some acc

/-- The full residual computation of the legacy retriever at one AOT
candidate (subaeroret.c lines 545-628 and the loop body lines 645-729). -/
def evalResidL (p : Pix) (k : ℝ → ℕ → Option ℝ) (a : ℝ) : Option EvalOut :=
  match k a p.iband1 with
  | none => none
  | some ros1 =>
    let t0 := decide (ros1 - tthv p.sat p.water p.iband1 < 0)
    match
      (if p.water then (bandList p.sat).foldlM (waterAccumL p k a) ((0 : ℝ), (0 : ℕ), t0)
       else (bandList p.sat).foldlM (landAccumL p k a ros1) ((0 : ℝ), (0 : ℕ), t0)) with
    | none => none
    | some z => some { residual := Real.sqrt z.1 / z.2.1, nbval := z.2.1, testth := z.2.2 }

/-- The refinement-time residual computation of the legacy retriever
(subaeroret.c lines 764-827). -/
def evalResidRefineL (p : Pix) (k : ℝ → ℕ → Option ℝ) (a : ℝ) : Option EvalOut :=
  match k a p.iband1 with
  | none => none
  | some ros1 =>
    let t0 := decide (ros1 - tthv p.sat p.water p.iband1 < 0)
    let init : ℝ × ℕ × Bool :=
      if p.water = true ∧ 0 < p.erelc p.iband1 then (ros1 * ros1, 1, t0) else (0, 0, t0)
    match (bandList p.sat).foldlM (fun acc ib =>
        if ib ≠ p.iband1 ∧ 0 < p.erelc ib then
          match k a ib with
          | none => none
          | some r =>
            some (acc.1 + (if p.water then r * r else (r - p.erelc ib * ros1) * (r - p.erelc ib * ros1)),
                  acc.2.1 + 1, acc.2.2 || decide (r - tthv p.sat p.water ib < 0))
        else some acc) init with
    | none => none
    | some z => some { residual := Real.sqrt z.1 / z.2.1, nbval := z.2.1, testth := z.2.2 }

/-- The search loop of the legacy retriever (subaeroret.c lines 630-733); a
kernel failure inside an iteration propagates as `none`. -/
def searchLoopL (p : Pix) (k : ℝ → ℕ → Option ℝ) (st : LoopState) : Option LoopState :=
  if h : searchCond st then
    match evalResidL p k (aot550nm st.iaot) with
    | none => none
    | some e => searchLoopL p k (stepWith st (aot550nm st.iaot) e)
  else some st
termination_by NAOT_VALS - st.iaot
decreasing_by
  simp only [stepWith]
  have h1 := h.1
  omega

/-- `subaeroret` (subaeroret.c lines 388-857): `none` models the `ERROR`
return, `some` the `SUCCESS` return together with the written outputs. -/
def subaeroretLeg (p : Pix) (k : ℝ → ℕ → Option ℝ) : Option RetOut :=
  match evalResidL p k (aot550nm p.iaots0) with
  | none => none
  | some e0 =>
    match searchLoopL p k (initWith p e0) with
    | none => none
    | some st =>
      if st.iaot = 1 then
        some { raot := st.raot550nm, residual := st.residual, iaots := p.iaots0 }
      else
        match evalResidRefineL p k (raotminClamped st) with
        | none => none
        | some er => some (refinePost p st (raotminClamped st) er.residual)

/-- The kernel obtained by stripping the error case of an everywhere-
successful fallible kernel. -/
def forceK (k : ℝ → ℕ → Option ℝ) : ℝ → ℕ → ℝ := fun a b => (k a b).getD 0

/-- The guarded loop step iterated a fixed number of times; used to bound
the number of iterations of the search loop. -/
def stepN (p : Pix) (rho : ℝ → ℕ → ℝ) : ℕ → LoopState → LoopState
  | 0, st => st
  | n + 1, st => if searchCond st then stepN p rho n (stepSt p rho st) else st

/-- A value of the 22-entry AOT grid. -/
def isGridVal (x : ℝ) : Prop := ∃ k, k < NAOT_VALS ∧ x = aot550nm k

/-- Invariant carried through the search loop: the stored residuals are
non-negative and the stored AOT candidates are grid values except for the
initial bracket sentinels `raot1 = 1e-4` and `raot2 = 1e-6`. -/
def stInv (st : LoopState) : Prop :=
  0 ≤ st.residual ∧ 0 ≤ st.residual1 ∧ 0 ≤ st.residual2 ∧
  isGridVal st.raot550nm ∧
  (st.raot1 = 0.0001 ∨ isGridVal st.raot1) ∧
  (st.raot2 = 1.0e-06 ∨ st.raot2 = 0.0001 ∨ isGridVal st.raot2)

/-- At least one band participates in the residual: over water, some band of
`[start_band, end_band]` has `erelc > 0`; over land, some such band differs
from `iband1`.  This is the admissibility condition under which every
`nbval` of the call is at least 1 and the divisions `sqrt(sum)/nbval` of
subaeroret.c lines 194, 264 and 342 are well defined. -/
def hasParticipatingBand (p : Pix) : Prop :=
  if p.water then
    ∃ b ∈ Finset.Icc (startBand p.sat) (endBand p.sat), 0 < p.erelc b
  else
    ∃ b ∈ Finset.Icc (startBand p.sat) (endBand p.sat), b ≠ p.iband1 ∧ 0 < p.erelc b

/-- A concrete pixel: Landsat-8 land pixel, driver band 0, band 1 the only
other participating band, warm start at grid index 1. -/
def cexPix : Pix :=
  { sat := Sat.landsat8, water := false, iband1 := 0
    erelc := fun b => if b = 1 then 1 else 0, iaots0 := 1 }

/-- A concrete kernel, constant in the AOT candidate: reflectance 1 on the
driver band and 1000001 on every other band, so every residual evaluation
yields 1000000. -/
def cexRho : ℝ → ℕ → ℝ := fun _ b => if b = 0 then 1 else 1000001

/-- The loop state reached on `cexPix`/`cexRho`: the guard fails at once
(1000000 is not below the sentinel 2000), so the state equals the initial
state. -/
def cexSt : LoopState :=
  { iaot := 2, raot550nm := 0.05, residual := 1000000, testth := false
    residual1 := 2000.0, raot1 := 0.0001, iaot1 := 0
    residual2 := 1000.0, raot2 := 1.0e-06, iaot2 := 0 }

/-- A simple pixel used to instantiate universally-quantified theorems:
no band participates. -/
def witPix : Pix :=
  { sat := Sat.landsat8, water := false, iband1 := 0
    erelc := fun _ => 0, iaots0 := 0 }

/-- A constant kernel for the same purpose. -/
def witRho : ℝ → ℕ → ℝ := fun _ _ => 1

/-- An all-zero loop state, on which the parabolic fit degenerates
(`xa = xb = 0`, and the real-valued model evaluates the `0/0` to 0, which the
range validation rejects). -/
def stZero : LoopState :=
  { iaot := 0, raot550nm := 0, residual := 0, testth := false
    residual1 := 0, raot1 := 0, iaot1 := 0
    residual2 := 0, raot2 := 0, iaot2 := 0 }

/-! ## Basic loop lemmas -/

theorem searchLoop_of_not_cond (p : Pix) (rho : ℝ → ℕ → ℝ) {st : LoopState}
    (h : ¬ searchCond st) : searchLoop p rho st = st := by
  unfold searchLoop
  simp [h]

theorem searchLoop_of_cond (p : Pix) (rho : ℝ → ℕ → ℝ) {st : LoopState}
    (h : searchCond st) : searchLoop p rho st = searchLoop p rho (stepSt p rho st) := by
  conv_lhs => unfold searchLoop
  simp [h]

theorem stepSt_iaot (p : Pix) (rho : ℝ → ℕ → ℝ) (st : LoopState) :
    (stepSt p rho st).iaot = st.iaot + 1 := rfl

/-- Any property preserved by accepted loop steps holds at the loop exit. -/
theorem searchLoop_invariant (p : Pix) (rho : ℝ → ℕ → ℝ) (P : LoopState → Prop)
    (hstep : ∀ s, searchCond s → P s → P (stepSt p rho s)) :
    ∀ st, P st → P (searchLoop p rho st) := by
  have key : ∀ (n : ℕ) (st : LoopState), NAOT_VALS - st.iaot ≤ n → P st →
      P (searchLoop p rho st) := by
    intro n
    induction n with
    | zero =>
      intro st hle hP
      have hnc : ¬ searchCond st := fun hc => by have h1 := hc.1; omega
      rw [searchLoop_of_not_cond p rho hnc]
      exact hP
    | succ n ih =>
      intro st hle hP
      by_cases hc : searchCond st
      · rw [searchLoop_of_cond p rho hc]
        have h1 := hc.1
        exact ih _ (by rw [stepSt_iaot]; omega) (hstep st hc hP)
      · rw [searchLoop_of_not_cond p rho hc]
        exact hP
  intro st hP
  exact key (NAOT_VALS - st.iaot) st le_rfl hP

/-- The loop exits only with its guard false. -/
theorem not_searchCond_searchLoop (p : Pix) (rho : ℝ → ℕ → ℝ) :
    ∀ st, ¬ searchCond (searchLoop p rho st) := by
  have key : ∀ (n : ℕ) (st : LoopState), NAOT_VALS - st.iaot ≤ n →
      ¬ searchCond (searchLoop p rho st) := by
    intro n
    induction n with
    | zero =>
      intro st hle
      have hnc : ¬ searchCond st := fun hc => by have h1 := hc.1; omega
      rw [searchLoop_of_not_cond p rho hnc]
      exact hnc
    | succ n ih =>
      intro st hle
      by_cases hc : searchCond st
      · rw [searchLoop_of_cond p rho hc]
        have h1 := hc.1
        exact ih _ (by rw [stepSt_iaot]; omega)
      · rw [searchLoop_of_not_cond p rho hc]
        exact hc
  intro st
  exact key (NAOT_VALS - st.iaot) st le_rfl

theorem searchLoop_eq_stepN (p : Pix) (rho : ℝ → ℕ → ℝ) :
    ∀ (n : ℕ) (st : LoopState), NAOT_VALS ≤ st.iaot + n →
      searchLoop p rho st = stepN p rho n st := by
  intro n
  induction n with
  | zero =>
    intro st hle
    have hnc : ¬ searchCond st := fun hc => by have h1 := hc.1; omega
    rw [searchLoop_of_not_cond p rho hnc]
    rfl
  | succ n ih =>
    intro st hle
    by_cases hc : searchCond st
    · rw [searchLoop_of_cond p rho hc, stepN, if_pos hc]
      exact ih _ (by rw [stepSt_iaot]; omega)
    · rw [searchLoop_of_not_cond p rho hc, stepN, if_neg hc]

/-! ## Folding the band loops into filtered sums -/

/-- A band loop that either accumulates `(sum, count, flag)` at a band or
skips it equals the filtered-sum form. -/
theorem foldl_guard (l : List ℕ) (P : ℕ → Prop) [DecidablePred P] (f : ℕ → ℝ)
    (t : ℕ → Bool) :
    ∀ acc : ℝ × ℕ × Bool,
      l.foldl (fun acc ib =>
          if P ib then (acc.1 + f ib, acc.2.1 + 1, acc.2.2 || t ib) else acc) acc =
        (acc.1 + ((l.filter fun ib => decide (P ib)).map f).sum,
         acc.2.1 + (l.filter fun ib => decide (P ib)).length,
         acc.2.2 || (l.filter fun ib => decide (P ib)).any t) := by
  induction l with
  | nil => intro acc; simp
  | cons hd tl ih =>
    intro acc
    by_cases hP : P hd
    · rw [List.foldl_cons, if_pos hP, ih]
      simp [hP, add_assoc, Bool.or_assoc]
      omega
    · rw [List.foldl_cons, if_neg hP, ih]
      simp [hP]

theorem filter_sum_range (P : ℕ → Prop) [DecidablePred P] (f : ℕ → ℝ) :
    ∀ n : ℕ, (((List.range n).filter fun b => decide (P b)).map f).sum =
      ∑ b in (Finset.range n).filter P, f b := by
  intro n
  induction n with
  | zero => simp
  | succ n ih =>
    rw [List.range_succ, Finset.range_succ, Finset.filter_insert]
    by_cases hP : P n
    · rw [if_pos hP, Finset.sum_insert (by simp)]
      simp [hP, ih]
      ring
    · rw [if_neg hP]
      simp [hP, ih]

theorem filter_length_range (P : ℕ → Prop) [DecidablePred P] :
    ∀ n : ℕ, ((List.range n).filter fun b => decide (P b)).length =
      ((Finset.range n).filter P).card := by
  intro n
  induction n with
  | zero => simp
  | succ n ih =>
    rw [List.range_succ, Finset.range_succ, Finset.filter_insert]
    by_cases hP : P n
    · rw [if_pos hP, Finset.card_insert_of_not_mem (by simp)]
      simp [hP, ih]
    · rw [if_neg hP]
      simp [hP, ih]

theorem bandList_eq_range (sat : Sat) : bandList sat = List.range (endBand sat + 1) := by
  cases sat <;>
    simp [bandList, startBand, endBand, DNL_BAND1, DNS_BAND1, List.range_eq_range']

theorem Icc_band_eq_range (sat : Sat) :
    Finset.Icc (startBand sat) (endBand sat) = Finset.range (endBand sat + 1) := by
  cases sat <;>
    · ext b
      simp [startBand, endBand, DNL_BAND1, DNS_BAND1, Nat.lt_succ_iff]

/-! ## The residual as a filtered sum -/

theorem evalResid_water_eq (p : Pix) (rho : ℝ → ℕ → ℝ) (a : ℝ) (hw : p.water = true) :
    (evalResid p rho a).residual =
      Real.sqrt (∑ b in (Finset.Icc (startBand p.sat) (endBand p.sat)).filter
          (fun b => 0 < p.erelc b), rho a b * rho a b) /
        ((Finset.Icc (startBand p.sat) (endBand p.sat)).filter
          (fun b => 0 < p.erelc b)).card ∧
    (evalResid p rho a).nbval =
      ((Finset.Icc (startBand p.sat) (endBand p.sat)).filter
        (fun b => 0 < p.erelc b)).card := by
  obtain ⟨sat, water, ib1, er, ia⟩ := p
  subst hw
  have hfold : (bandList sat).foldl (waterAccum ⟨sat, true, ib1, er, ia⟩ rho a)
      (0, 0, decide (rho a ib1 - tthv sat true ib1 < 0)) =
      (0 + (((bandList sat).filter fun ib => decide (0 < er ib)).map
          (fun ib => rho a ib * rho a ib)).sum,
       0 + ((bandList sat).filter fun ib => decide (0 < er ib)).length,
       (decide (rho a ib1 - tthv sat true ib1 < 0)) ||
         ((bandList sat).filter fun ib => decide (0 < er ib)).any
          (fun ib => decide (rho a ib - tthv sat true ib < 0))) :=
    foldl_guard (bandList sat) (fun ib => 0 < er ib)
      (fun ib => rho a ib * rho a ib)
      (fun ib => decide (rho a ib - tthv sat true ib < 0))
      (0, 0, decide (rho a ib1 - tthv sat true ib1 < 0))
  rw [Icc_band_eq_range]
  refine ⟨?_, ?_⟩ <;>
  · simp only [evalResid, if_true]
    rw [hfold]
    simp only [zero_add, bandList_eq_range, filter_sum_range, filter_length_range]

theorem evalResid_land_eq (p : Pix) (rho : ℝ → ℕ → ℝ) (a : ℝ) (hw : p.water = false) :
    (evalResid p rho a).residual =
      Real.sqrt (∑ b in (Finset.Icc (startBand p.sat) (endBand p.sat)).filter
          (fun b => b ≠ p.iband1 ∧ 0 < p.erelc b),
          (rho a b - p.erelc b * rho a p.iband1) * (rho a b - p.erelc b * rho a p.iband1)) /
        ((Finset.Icc (startBand p.sat) (endBand p.sat)).filter
          (fun b => b ≠ p.iband1 ∧ 0 < p.erelc b)).card ∧
    (evalResid p rho a).nbval =
      ((Finset.Icc (startBand p.sat) (endBand p.sat)).filter
        (fun b => b ≠ p.iband1 ∧ 0 < p.erelc b)).card := by
  obtain ⟨sat, water, ib1, er, ia⟩ := p
  subst hw
  have hfold : (bandList sat).foldl (landAccum ⟨sat, false, ib1, er, ia⟩ rho a (rho a ib1))
      (0, 0, decide (rho a ib1 - tthv sat false ib1 < 0)) =
      (0 + (((bandList sat).filter fun ib => decide (ib ≠ ib1 ∧ 0 < er ib)).map
          (fun ib => (rho a ib - er ib * rho a ib1) * (rho a ib - er ib * rho a ib1))).sum,
       0 + ((bandList sat).filter fun ib => decide (ib ≠ ib1 ∧ 0 < er ib)).length,
       (decide (rho a ib1 - tthv sat false ib1 < 0)) ||
         ((bandList sat).filter fun ib => decide (ib ≠ ib1 ∧ 0 < er ib)).any
          (fun ib => decide (rho a ib - tthv sat false ib < 0))) :=
    foldl_guard (bandList sat) (fun ib => ib ≠ ib1 ∧ 0 < er ib)
      (fun ib => (rho a ib - er ib * rho a ib1) * (rho a ib - er ib * rho a ib1))
      (fun ib => decide (rho a ib - tthv sat false ib < 0))
      (0, 0, decide (rho a ib1 - tthv sat false ib1 < 0))
  rw [Icc_band_eq_range]
  refine ⟨?_, ?_⟩ <;>
  · simp only [evalResid, Bool.false_eq_true, if_false]
    rw [hfold]
    simp only [zero_add, bandList_eq_range, filter_sum_range, filter_length_range]

theorem evalResid_residual_nonneg (p : Pix) (rho : ℝ → ℕ → ℝ) (a : ℝ) :
    0 ≤ (evalResid p rho a).residual := by
  show 0 ≤ Real.sqrt _ / _
  exact div_nonneg (Real.sqrt_nonneg _) (Nat.cast_nonneg _)

theorem evalResidRefine_residual_nonneg (p : Pix) (rho : ℝ → ℕ → ℝ) (a : ℝ) :
    0 ≤ (evalResidRefine p rho a).residual := by
  show 0 ≤ Real.sqrt _ / _
  exact div_nonneg (Real.sqrt_nonneg _) (Nat.cast_nonneg _)

/-! ## Claim theorems -/

/-- C2: at every AOT candidate evaluated by the search, the residual equals,
for land, the square root of the sum of `(roslamb_b - erelc[b] * ros1)^2`
over exactly the bands `b` of `[start_band, end_band]` with `erelc[b] > 0`
and `b ≠ iband1` (where `ros1` is the kernel output for `iband1`), divided by
the count of those bands; and for water, the square root of the sum of
`roslamb_b^2` over the bands of the same range with `erelc[b] > 0` (`iband1`
included), divided by their count. -/
theorem residual_is_rms_of_band_errors (p : Pix) (rho : ℝ → ℕ → ℝ) (a : ℝ) :
    (p.water = false →
      (evalResid p rho a).residual =
        Real.sqrt (∑ b in (Finset.Icc (startBand p.sat) (endBand p.sat)).filter
            (fun b => b ≠ p.iband1 ∧ 0 < p.erelc b),
            (rho a b - p.erelc b * rho a p.iband1) ^ 2) /
          ((Finset.Icc (startBand p.sat) (endBand p.sat)).filter
            (fun b => b ≠ p.iband1 ∧ 0 < p.erelc b)).card) ∧
    (p.water = true →
      (evalResid p rho a).residual =
        Real.sqrt (∑ b in (Finset.Icc (startBand p.sat) (endBand p.sat)).filter
            (fun b => 0 < p.erelc b), rho a b ^ 2) /
          ((Finset.Icc (startBand p.sat) (endBand p.sat)).filter
            (fun b => 0 < p.erelc b)).card) := by
  constructor
  · intro hw
    simp only [pow_two]
    exact (evalResid_land_eq p rho a hw).1
  · intro hw
    simp only [pow_two]
    exact (evalResid_water_eq p rho a hw).1

/-- C10: every residual computation divides the square root of the
accumulated sum of squares by the band count `nbval` with no zero guard, and
`nbval ≥ 1` holds exactly when at least one band participates: over water,
some band of `[start_band, end_band]` with `erelc[b] > 0`; over land, some
such band with `b ≠ iband1`.  (In this real-valued model division by a zero
`nbval` is total, and the residual is non-negative whenever defined.) -/
theorem nbval_positive_iff_participating (p : Pix) (rho : ℝ → ℕ → ℝ) (a : ℝ) :
    (p.water = true → (0 < (evalResid p rho a).nbval ↔
      ∃ b ∈ Finset.Icc (startBand p.sat) (endBand p.sat), 0 < p.erelc b)) ∧
    (p.water = false → (0 < (evalResid p rho a).nbval ↔
      ∃ b ∈ Finset.Icc (startBand p.sat) (endBand p.sat), b ≠ p.iband1 ∧ 0 < p.erelc b)) ∧
    0 ≤ (evalResid p rho a).residual := by
  refine ⟨fun hw => ?_, fun hw => ?_, evalResid_residual_nonneg p rho a⟩
  · rw [(evalResid_water_eq p rho a hw).2, Finset.card_pos, Finset.filter_nonempty_iff]
  · rw [(evalResid_land_eq p rho a hw).2, Finset.card_pos, Finset.filter_nonempty_iff]

/-- C5: in every run of the search loop a step is taken exactly when the
index is within the 22-entry grid, the fresh residual is strictly below
`residual1`, and `testth` is false (the guard `searchCond`); every accepted
step makes the stored residual history strictly decreasing
(`residual1 < residual2` afterwards, i.e. the newly accepted residual is
strictly below the previously accepted one); and the loop exits exactly in a
state whose guard fails (grid exhausted, residual no longer strictly
decreasing, or `testth` fired). -/
theorem search_loop_stepping :
    (∀ (p : Pix) (rho : ℝ → ℕ → ℝ) (st : LoopState),
        searchLoop p rho st =
          if searchCond st then searchLoop p rho (stepSt p rho st) else st) ∧
    (∀ (p : Pix) (rho : ℝ → ℕ → ℝ) (st : LoopState), searchCond st →
        (stepSt p rho st).residual1 < (stepSt p rho st).residual2) ∧
    (∀ (p : Pix) (rho : ℝ → ℕ → ℝ) (st : LoopState),
        ¬ (searchLoop p rho st).iaot < NAOT_VALS ∨
        ¬ (searchLoop p rho st).residual < (searchLoop p rho st).residual1 ∨
        ¬ (searchLoop p rho st).testth = false) := by
  refine ⟨?_, ?_, ?_⟩
  · intro p rho st
    by_cases h : searchCond st
    · rw [if_pos h]
      exact searchLoop_of_cond p rho h
    · rw [if_neg h]
      exact searchLoop_of_not_cond p rho h
  · intro p rho st h
    show st.residual < st.residual1
    exact h.2.1
  · intro p rho st
    have h := not_searchCond_searchLoop p rho st
    by_contra hc
    push_neg at hc
    exact h ⟨hc.1, hc.2.1, hc.2.2⟩

/-- C7: the retrieval is bounded: the grid has `NAOT_VALS = 22` entries, the
loop index strictly increases at each iteration, the loop is already exited
whenever the index has reached 22, and from any state the loop equals 22
applications of the guarded step (so at most 22 iterations run); the
refinement afterwards performs exactly one further full-residual evaluation
by construction of `refineBranch`. -/
theorem search_loop_bounded :
    NAOT_VALS = 22 ∧
    (∀ (p : Pix) (rho : ℝ → ℕ → ℝ) (st : LoopState),
        (stepSt p rho st).iaot = st.iaot + 1) ∧
    (∀ (p : Pix) (rho : ℝ → ℕ → ℝ) (st : LoopState), 22 ≤ st.iaot →
        searchLoop p rho st = st) ∧
    (∀ (p : Pix) (rho : ℝ → ℕ → ℝ) (st : LoopState),
        searchLoop p rho st = stepN p rho 22 st) := by
  refine ⟨rfl, fun p rho st => rfl, ?_, ?_⟩
  · intro p rho st h
    refine searchLoop_of_not_cond p rho (fun hc => ?_)
    have h1 := hc.1
    simp only [NAOT_VALS] at h1
    omega
  · intro p rho st
    refine searchLoop_eq_stepN p rho 22 st ?_
    simp only [NAOT_VALS]
    omega

/-- C8: for Landsat-8 and Landsat-9 the retriever iterates bands 0..6 and
uses the Landsat `tth` tables, `{1e-3, 1e-3, 0, 1e-3, 0, 0, 1e-4, 0}` on
land and `{1e-3, 1e-3, 0, 1e-3, 1e-3, 0, 1e-4, 0}` on water; for Sentinel-2
in the default configuration (bands 9 and 10 skipped) it iterates bands
0..10 and uses `{1e-3, 1e-3, 0, 1e-3, 0, 0, 0, 0, 0, 0, 1e-4}` on land and
`{1e-3, 0, 0, 1e-3, 0, 0, 0, 0, 1e-3, 0, 1e-4}` on water. -/
theorem band_ranges_and_thresholds :
    bandList Sat.landsat8 = [0, 1, 2, 3, 4, 5, 6] ∧
    bandList Sat.landsat9 = [0, 1, 2, 3, 4, 5, 6] ∧
    bandList Sat.sentinel2 = [0, 1, 2, 3, 4, 5, 6, 7, 8, 9, 10] ∧
    tthTable Sat.landsat8 false = [1.0e-3, 1.0e-3, 0, 1.0e-3, 0, 0, 1.0e-4, 0] ∧
    tthTable Sat.landsat8 true = [1.0e-3, 1.0e-3, 0, 1.0e-3, 1.0e-3, 0, 1.0e-4, 0] ∧
    tthTable Sat.landsat9 false = [1.0e-3, 1.0e-3, 0, 1.0e-3, 0, 0, 1.0e-4, 0] ∧
    tthTable Sat.landsat9 true = [1.0e-3, 1.0e-3, 0, 1.0e-3, 1.0e-3, 0, 1.0e-4, 0] ∧
    tthTable Sat.sentinel2 false = [1.0e-3, 1.0e-3, 0, 1.0e-3, 0, 0, 0, 0, 0, 0, 1.0e-4] ∧
    tthTable Sat.sentinel2 true = [1.0e-3, 0, 0, 1.0e-3, 0, 0, 0, 0, 1.0e-3, 0, 1.0e-4] := by
  refine ⟨rfl, rfl, rfl, ?_, ?_, ?_, ?_, ?_, ?_⟩ <;>
    norm_num [tthTable, landsat_tth, landsat_tth_water, sentinel_tth, sentinel_tth_water]

/-! ## The refinement downgrade chain -/

theorem refinePost_residual (p : Pix) (st : LoopState) (a' rm : ℝ) :
    (refinePost p st a' rm).residual =
      min (min (min rm st.residual) st.residual1) st.residual2 := by
  unfold refinePost
  dsimp only
  simp only [min_def]
  split_ifs <;> first | rfl | linarith

theorem refinePost_raot (p : Pix) (st : LoopState) (a' rm : ℝ) :
    (refinePost p st a' rm).raot =
      if rm ≤ st.residual ∧ rm ≤ st.residual1 ∧ rm ≤ st.residual2 then a'
      else if st.residual ≤ st.residual1 ∧ st.residual ≤ st.residual2 then st.raot550nm
      else if st.residual1 ≤ st.residual2 then st.raot1
      else st.raot2 := by
  unfold refinePost
  dsimp only
  by_cases h1 : rm > st.residual
  · rw [if_pos h1]
    dsimp only
    by_cases h2 : st.residual > st.residual1
    · rw [if_pos h2]
      dsimp only
      by_cases h3 : st.residual1 > st.residual2
      · rw [if_pos h3, if_neg (fun hA => absurd hA.1 (not_le.mpr h1)),
          if_neg (fun hB => absurd hB.1 (not_le.mpr h2)), if_neg (not_le.mpr h3)]
      · rw [if_neg h3, if_neg (fun hA => absurd hA.1 (not_le.mpr h1)),
          if_neg (fun hB => absurd hB.1 (not_le.mpr h2)), if_pos (le_of_not_lt h3)]
    · rw [if_neg h2]
      dsimp only
      by_cases h3 : st.residual > st.residual2
      · rw [if_pos h3, if_neg (fun hA => absurd hA.1 (not_le.mpr h1)),
          if_neg (fun hB => absurd hB.2 (not_le.mpr h3)),
          if_neg (by push_neg at h2; push_neg; linarith)]
      · rw [if_neg h3, if_neg (fun hA => absurd hA.1 (not_le.mpr h1)),
          if_pos ⟨le_of_not_lt h2, le_of_not_lt h3⟩]
  · rw [if_neg h1]
    dsimp only
    by_cases h2 : rm > st.residual1
    · rw [if_pos h2]
      dsimp only
      by_cases h3 : st.residual1 > st.residual2
      · rw [if_pos h3, if_neg (fun hA => absurd hA.2.1 (not_le.mpr h2)),
          if_neg (fun hB => absurd hB.1 (by push_neg at h1; push_neg; linarith)),
          if_neg (not_le.mpr h3)]
      · rw [if_neg h3, if_neg (fun hA => absurd hA.2.1 (not_le.mpr h2)),
          if_neg (fun hB => absurd hB.1 (by push_neg at h1; push_neg; linarith)),
          if_pos (le_of_not_lt h3)]
    · rw [if_neg h2]
      dsimp only
      by_cases h3 : rm > st.residual2
      · rw [if_pos h3, if_neg (fun hA => absurd hA.2.2 (not_le.mpr h3)),
          if_neg (fun hB => absurd hB.2 (by push_neg at h1; push_neg; linarith)),
          if_neg (by push_neg at h1 h2; push_neg; linarith)]
      · rw [if_neg h3,
          if_pos ⟨le_of_not_lt h1, le_of_not_lt h2, le_of_not_lt h3⟩]

theorem refinePost_raot_mem (p : Pix) (st : LoopState) (a' rm : ℝ) :
    (refinePost p st a' rm).raot = a' ∨ (refinePost p st a' rm).raot = st.raot550nm ∨
    (refinePost p st a' rm).raot = st.raot1 ∨ (refinePost p st a' rm).raot = st.raot2 := by
  unfold refinePost
  dsimp only
  split_ifs <;> simp

theorem raotminClamped_cases (st : LoopState) :
    (0.01 ≤ raotminClamped st ∧ raotminClamped st ≤ 4) ∨
    raotminClamped st = st.raot550nm := by
  unfold raotminClamped
  split_ifs with h
  · right; rfl
  · left
    push_neg at h
    refine ⟨h.1, ?_⟩
    have h2 := h.2
    norm_num at h2 ⊢
    exact h2

theorem aot550nm_range (k : ℕ) (hk : k < NAOT_VALS) :
    0.01 ≤ aot550nm k ∧ aot550nm k ≤ 5 := by
  simp only [NAOT_VALS] at hk
  interval_cases k <;> norm_num [aot550nm]

/-- C6: whenever the refinement branch runs, the residual finally returned
equals the smallest of the residual evaluated at the refined candidate
(`residualm`) and the three residuals `residual`, `residual1`, `residual2`
held just before refinement; in particular it never exceeds
`min(residual, residual1, residual2)`; and the returned `raot` is the
earliest candidate attaining that smallest value in the order min-candidate,
saved, bracket-1, bracket-2 (ties keep the earlier candidate). -/
theorem refinement_never_worsens (p : Pix) (rho : ℝ → ℕ → ℝ) (st : LoopState) :
    (refineBranch p rho st).residual =
      min (min (min (evalResidRefine p rho (raotminClamped st)).residual st.residual)
        st.residual1) st.residual2 ∧
    (refineBranch p rho st).residual ≤ min st.residual (min st.residual1 st.residual2) ∧
    (refineBranch p rho st).raot =
      (if (evalResidRefine p rho (raotminClamped st)).residual ≤ st.residual ∧
          (evalResidRefine p rho (raotminClamped st)).residual ≤ st.residual1 ∧
          (evalResidRefine p rho (raotminClamped st)).residual ≤ st.residual2
       then raotminClamped st
       else if st.residual ≤ st.residual1 ∧ st.residual ≤ st.residual2 then st.raot550nm
       else if st.residual1 ≤ st.residual2 then st.raot1
       else st.raot2) := by
  refine ⟨refinePost_residual p st _ _, ?_, refinePost_raot p st _ _⟩
  have h := refinePost_residual p st (raotminClamped st)
    (evalResidRefine p rho (raotminClamped st)).residual
  show (refinePost p st (raotminClamped st)
    (evalResidRefine p rho (raotminClamped st)).residual).residual ≤ _
  rw [h]
  refine le_min ?_ (le_min ?_ ?_)
  · exact le_trans (min_le_left _ _) (le_trans (min_le_left _ _) (min_le_right _ _))
  · exact le_trans (min_le_left _ _) (min_le_right _ _)
  · exact min_le_right _ _

/-- C3: after the search loop and the refinement complete (the refinement
branch requires the post-increment counter `iaot` to differ from 1), the
exported warm-start hint `iaots` equals `max(iaot2 - 3, 0)`, except that
when `water` is true and `iaot` equals 1 it is set to 0. -/
theorem warm_start_export (p : Pix) (rho : ℝ → ℕ → ℝ)
    (h : (searchLoop p rho (initState p rho)).iaot ≠ 1) :
    ((subaeroretNew p rho).iaots : ℤ) =
      if p.water = true ∧ (searchLoop p rho (initState p rho)).iaot = 1 then 0
      else max (((searchLoop p rho (initState p rho)).iaot2 : ℤ) - 3) 0 := by
  have hout : subaeroretNew p rho = refineBranch p rho (searchLoop p rho (initState p rho)) := by
    simp only [subaeroretNew]
    rw [if_neg h]
  rw [hout]
  unfold refineBranch refinePost
  dsimp only
  by_cases hw : p.water = true ∧ (searchLoop p rho (initState p rho)).iaot = 1
  · rw [if_pos hw, if_pos hw]
    norm_num
  · rw [if_neg hw, if_neg hw]
    omega

theorem stInv_step (p : Pix) (rho : ℝ → ℕ → ℝ) :
    ∀ st, searchCond st → stInv st → stInv (stepSt p rho st) := by
  intro st hc hI
  obtain ⟨h0, h1, _h2, hg, hr1, _hr2⟩ := hI
  refine ⟨evalResid_residual_nonneg p rho _, h0, h1, ⟨st.iaot, hc.1, rfl⟩, Or.inr hg, ?_⟩
  rcases hr1 with h | h
  · exact Or.inr (Or.inl h)
  · exact Or.inr (Or.inr h)

theorem stInv_init (p : Pix) (rho : ℝ → ℕ → ℝ) (h : p.iaots0 < NAOT_VALS) :
    stInv (initState p rho) := by
  exact ⟨evalResid_residual_nonneg p rho _, by show (0:ℝ) ≤ 2000.0; norm_num,
    by show (0:ℝ) ≤ 1000.0; norm_num, ⟨p.iaots0, h, rfl⟩, Or.inl rfl, Or.inl rfl⟩

/-- C1 (amended): on admissible inputs — at least one participating band,
and a warm start inside the 22-entry grid — the returned `raot` lies in
`[0.01, 5.0]` or is one of the two never-evaluated initial bracket sentinels
`1e-4` (`raot1`) and `1e-6` (`raot2`), which the refinement's downgrade
chain can return when the sentinel residuals 2000/1000 undercut every
actually evaluated residual; the returned residual is non-negative (and, in
this real-valued model, trivially finite). -/
theorem retrieval_output_range (p : Pix) (rho : ℝ → ℕ → ℝ)
    (hpart : hasParticipatingBand p) (h : p.iaots0 < NAOT_VALS) :
    ((0.01 ≤ (subaeroretNew p rho).raot ∧ (subaeroretNew p rho).raot ≤ 5) ∨
      (subaeroretNew p rho).raot = 0.0001 ∨ (subaeroretNew p rho).raot = 1.0e-06) ∧
    0 ≤ (subaeroretNew p rho).residual := by
  have hI : stInv (searchLoop p rho (initState p rho)) :=
    searchLoop_invariant p rho stInv (stInv_step p rho) _ (stInv_init p rho h)
  obtain ⟨h0, h1, h2, hg, hr1, hr2⟩ := hI
  have hgb : ∀ x, isGridVal x → 0.01 ≤ x ∧ x ≤ 5 := by
    rintro x ⟨k, hk, rfl⟩
    exact aot550nm_range k hk
  simp only [subaeroretNew]
  by_cases hiaot : (searchLoop p rho (initState p rho)).iaot = 1
  · rw [if_pos hiaot]
    exact ⟨Or.inl (hgb _ hg), h0⟩
  · rw [if_neg hiaot]
    unfold refineBranch
    constructor
    · rcases refinePost_raot_mem p (searchLoop p rho (initState p rho))
        (raotminClamped (searchLoop p rho (initState p rho)))
        (evalResidRefine p rho
          (raotminClamped (searchLoop p rho (initState p rho)))).residual with
        hA | hA | hA | hA <;> rw [hA]
      · rcases raotminClamped_cases (searchLoop p rho (initState p rho)) with ⟨hl, hu⟩ | hEq
        · exact Or.inl ⟨hl, by linarith⟩
        · rw [hEq]
          exact Or.inl (hgb _ hg)
      · exact Or.inl (hgb _ hg)
      · rcases hr1 with hE | hE
        · exact Or.inr (Or.inl hE)
        · exact Or.inl (hgb _ hE)
      · rcases hr2 with hE | hE | hE
        · exact Or.inr (Or.inr hE)
        · exact Or.inr (Or.inl hE)
        · exact Or.inl (hgb _ hE)
    · rw [refinePost_residual]
      exact le_min (le_min (le_min (evalResidRefine_residual_nonneg p rho _) h0) h1) h2

/-! ## Concrete evaluation on `cexPix`/`cexRho` -/

theorem cex_sqrt : Real.sqrt ((1000000000000 : ℝ)) = 1000000 := by
  rw [show (1000000000000 : ℝ) = 1000000 ^ 2 by norm_num]
  exact Real.sqrt_sq (by norm_num)

theorem cex_evalResid (a : ℝ) : evalResid cexPix cexRho a = ⟨1000000, 1, false⟩ := by
  norm_num [evalResid, cexPix, cexRho, bandList, startBand, endBand, DNL_BAND1, DNL_BAND7,
    landAccum, tthv, tthTable, landsat_tth, List.range', List.foldl, cex_sqrt]

theorem cex_evalRefine (a : ℝ) : evalResidRefine cexPix cexRho a = ⟨1000000, 1, false⟩ := by
  norm_num [evalResidRefine, cexPix, cexRho, bandList, startBand, endBand, DNL_BAND1,
    DNL_BAND7, tthv, tthTable, landsat_tth, List.range', List.foldl, cex_sqrt]

theorem cex_init : initState cexPix cexRho = cexSt := by
  simp only [initState, initWith, cex_evalResid]
  norm_num [cexSt, cexPix, aot550nm]

theorem cex_loop : searchLoop cexPix cexRho (initState cexPix cexRho) = cexSt := by
  rw [cex_init]
  refine searchLoop_of_not_cond cexPix cexRho (fun hc => ?_)
  have h := hc.2.1
  norm_num [cexSt] at h

theorem cex_raotmin : raotminOf cexSt < 0.01 := by
  norm_num [raotminOf, xaOf, xbOf, cexSt]

theorem cex_clamped : raotminClamped cexSt = 0.05 := by
  unfold raotminClamped
  rw [if_pos (Or.inl cex_raotmin)]
  norm_num [cexSt]

theorem cex_out : subaeroretNew cexPix cexRho = ⟨1.0e-06, 1000, 0⟩ := by
  simp only [subaeroretNew]
  rw [cex_loop, if_neg (by norm_num [cexSt])]
  unfold refineBranch
  rw [cex_clamped, cex_evalRefine]
  norm_num [refinePost, cexSt, cexPix]

/-- C1 counterexample: on the admissible input `cexPix`/`cexRho` (one band
participates, warm start at grid index 1) every evaluated residual is
1000000, the search loop takes no step, and the refinement's downgrade chain
walks down to the sentinel `raot2 = 1e-6`: the returned `raot` is below
0.01, outside `[0.01, 5.0]`. -/
theorem retrieval_output_range_cex :
    0 < (evalResid cexPix cexRho (aot550nm cexPix.iaots0)).nbval ∧
    (subaeroretNew cexPix cexRho).raot < 0.01 := by
  constructor
  · rw [cex_evalResid]
    norm_num
  · rw [cex_out]
    norm_num

/-- C1 witness input: `cexPix` is admissible — its band 1 participates (land,
`erelc[1] = 1 > 0`, `1 ≠ iband1`) and its warm start 1 is inside the grid —
so the amended range theorem applies to it. -/
theorem retrieval_output_range_witness :
    ((0.01 ≤ (subaeroretNew cexPix cexRho).raot ∧ (subaeroretNew cexPix cexRho).raot ≤ 5) ∨
      (subaeroretNew cexPix cexRho).raot = 0.0001 ∨
      (subaeroretNew cexPix cexRho).raot = 1.0e-06) ∧
    0 ≤ (subaeroretNew cexPix cexRho).residual :=
  retrieval_output_range cexPix cexRho
    (by
      show ∃ b ∈ Finset.Icc (startBand cexPix.sat) (endBand cexPix.sat),
        b ≠ cexPix.iband1 ∧ 0 < cexPix.erelc b
      refine ⟨1, ?_, ?_, ?_⟩ <;>
        norm_num [cexPix, startBand, endBand, DNL_BAND1, DNL_BAND7])
    (by norm_num [cexPix, NAOT_VALS])

/-- C3 witness input: on `cexPix`/`cexRho` the loop exits with `iaot = 2`,
so the refinement runs and the exported hint obeys the formula. -/
theorem warm_start_export_witness :
    ((subaeroretNew cexPix cexRho).iaots : ℤ) =
      if cexPix.water = true ∧
          (searchLoop cexPix cexRho (initState cexPix cexRho)).iaot = 1 then 0
      else max (((searchLoop cexPix cexRho (initState cexPix cexRho)).iaot2 : ℤ) - 3) 0 :=
  warm_start_export cexPix cexRho (by rw [cex_loop]; norm_num [cexSt])

/-- C4 (amended): whenever the parabolic refinement produces `raot_min`
below 0.01 or above 4.0, the refined candidate is discarded in the sense
that the refinement evaluation happens at `raot550` (the last grid AOT value
the loop evaluated) and `raot` is first set to `raot550`; the finally
returned `raot` is however still subject to the residual downgrade chain and
equals `raot550`, `raot1` or `raot2`. -/
theorem discard_out_of_range_raotmin (p : Pix) (rho : ℝ → ℕ → ℝ) (st : LoopState)
    (h : raotminOf st < 0.01 ∨ raotminOf st > 4.0) :
    raotminClamped st = st.raot550nm ∧
    ((refineBranch p rho st).raot = st.raot550nm ∨
     (refineBranch p rho st).raot = st.raot1 ∨
     (refineBranch p rho st).raot = st.raot2) := by
  have hcl : raotminClamped st = st.raot550nm := by
    unfold raotminClamped
    exact if_pos h
  refine ⟨hcl, ?_⟩
  rcases refinePost_raot_mem p st (raotminClamped st)
      (evalResidRefine p rho (raotminClamped st)).residual with hA | hA | hA | hA
  · left
    rw [← hcl]
    exact hA
  · left
    exact hA
  · right; left
    exact hA
  · right; right
    exact hA

/-- C4 counterexample: on `cexPix`/`cexRho` the parabolic fit yields
`raot_min < 0.01`, so the candidate is discarded, yet the returned `raot`
(the sentinel `1e-6`) differs from `raot550 = 0.05`: the downgrade chain
moved it. -/
theorem discard_out_of_range_raotmin_cex :
    raotminOf (searchLoop cexPix cexRho (initState cexPix cexRho)) < 0.01 ∧
    (subaeroretNew cexPix cexRho).raot ≠
      (searchLoop cexPix cexRho (initState cexPix cexRho)).raot550nm := by
  rw [cex_loop, cex_out]
  refine ⟨cex_raotmin, ?_⟩
  norm_num [cexSt]

/-- C4 witness input: the all-zero state degenerates the fit (`xa = xb = 0`;
the model's total division returns 0, which is below 0.01). -/
theorem discard_out_of_range_raotmin_witness :
    raotminClamped stZero = stZero.raot550nm ∧
    ((refineBranch witPix witRho stZero).raot = stZero.raot550nm ∨
     (refineBranch witPix witRho stZero).raot = stZero.raot1 ∨
     (refineBranch witPix witRho stZero).raot = stZero.raot2) :=
  discard_out_of_range_raotmin witPix witRho stZero
    (Or.inl (by norm_num [raotminOf, xaOf, xbOf, stZero]))

/-! ## Legacy/semi-empirical equivalence under a total kernel -/

theorem forceK_eq {k : ℝ → ℕ → Option ℝ} (h : ∀ a b, (k a b).isSome = true) (a : ℝ)
    (b : ℕ) : k a b = some (forceK k a b) := by
  rcases Option.isSome_iff_exists.mp (h a b) with ⟨r, hr⟩
  simp [forceK, hr]

theorem foldlM_option {α β : Type} (f : β → α → Option β) (g : β → α → β)
    (h : ∀ b a, f b a = some (g b a)) :
    ∀ (l : List α) (b : β), List.foldlM f b l = some (List.foldl g b l) := by
  intro l
  induction l with
  | nil => intro b; rfl
  | cons hd tl ih =>
    intro b
    rw [List.foldlM_cons, h b hd]
    show List.foldlM f (g b hd) tl = some (List.foldl g (g b hd) tl)
    exact ih (g b hd)

theorem waterAccumL_total (p : Pix) (k : ℝ → ℕ → Option ℝ)
    (hk : ∀ a b, (k a b).isSome = true) (a : ℝ) :
    ∀ acc ib, waterAccumL p k a acc ib = some (waterAccum p (forceK k) a acc ib) := by
  intro acc ib
  unfold waterAccumL waterAccum
  by_cases hg : 0 < p.erelc ib
  · rw [if_pos hg, if_pos hg, forceK_eq hk a ib]
  · rw [if_neg hg, if_neg hg]

theorem landAccumL_total (p : Pix) (k : ℝ → ℕ → Option ℝ)
    (hk : ∀ a b, (k a b).isSome = true) (a ros1 : ℝ) :
    ∀ acc ib, landAccumL p k a ros1 acc ib = some (landAccum p (forceK k) a ros1 acc ib) := by
  intro acc ib
  unfold landAccumL landAccum
  by_cases hg : ib ≠ p.iband1 ∧ 0 < p.erelc ib
  · rw [if_pos hg, if_pos hg, forceK_eq hk a ib]
  · rw [if_neg hg, if_neg hg]

theorem evalResidL_total (p : Pix) (k : ℝ → ℕ → Option ℝ)
    (hk : ∀ a b, (k a b).isSome = true) (a : ℝ) :
    evalResidL p k a = some (evalResid p (forceK k) a) := by
  unfold evalResidL evalResid
  rw [forceK_eq hk a p.iband1]
  dsimp only
  by_cases hw : p.water
  · rw [if_pos hw, if_pos hw,
      foldlM_option _ _ (waterAccumL_total p k hk a) (bandList p.sat)]
  · rw [if_neg hw, if_neg hw,
      foldlM_option _ _ (landAccumL_total p k hk a (forceK k a p.iband1)) (bandList p.sat)]

theorem evalResidRefineL_total (p : Pix) (k : ℝ → ℕ → Option ℝ)
    (hk : ∀ a b, (k a b).isSome = true) (a : ℝ) :
    evalResidRefineL p k a = some (evalResidRefine p (forceK k) a) := by
  unfold evalResidRefineL evalResidRefine
  rw [forceK_eq hk a p.iband1]
  dsimp only
  rw [foldlM_option _ _ (fun acc ib => ?_) (bandList p.sat)]
  by_cases hg : ib ≠ p.iband1 ∧ 0 < p.erelc ib
  · rw [if_pos hg, if_pos hg, forceK_eq hk a ib]
  · rw [if_neg hg, if_neg hg]

theorem searchLoopL_of_not_cond (p : Pix) (k : ℝ → ℕ → Option ℝ) {st : LoopState}
    (h : ¬ searchCond st) : searchLoopL p k st = some st := by
  unfold searchLoopL
  simp [h]

theorem searchLoopL_of_cond (p : Pix) (k : ℝ → ℕ → Option ℝ) {st : LoopState}
    (h : searchCond st) :
    searchLoopL p k st =
      match evalResidL p k (aot550nm st.iaot) with
      | none => none
      | some e => searchLoopL p k (stepWith st (aot550nm st.iaot) e) := by
  conv_lhs => unfold searchLoopL
  simp [h]

theorem searchLoopL_total (p : Pix) (k : ℝ → ℕ → Option ℝ)
    (hk : ∀ a b, (k a b).isSome = true) :
    ∀ st, searchLoopL p k st = some (searchLoop p (forceK k) st) := by
  have key : ∀ (n : ℕ) (st : LoopState), NAOT_VALS - st.iaot ≤ n →
      searchLoopL p k st = some (searchLoop p (forceK k) st) := by
    intro n
    induction n with
    | zero =>
      intro st hle
      have hnc : ¬ searchCond st := fun hc => by have h1 := hc.1; omega
      rw [searchLoop_of_not_cond _ _ hnc, searchLoopL_of_not_cond p k hnc]
    | succ n ih =>
      intro st hle
      by_cases hc : searchCond st
      · rw [searchLoop_of_cond _ _ hc, searchLoopL_of_cond p k hc,
          evalResidL_total p k hk]
        dsimp only
        exact ih _ (by simp only [stepWith]; have h1 := hc.1; omega)
      · rw [searchLoop_of_not_cond _ _ hc, searchLoopL_of_not_cond p k hc]
  intro st
  exact key (NAOT_VALS - st.iaot) st le_rfl

theorem subaeroretLeg_total (p : Pix) (k : ℝ → ℕ → Option ℝ)
    (hk : ∀ a b, (k a b).isSome = true) :
    subaeroretLeg p k = some (subaeroretNew p (forceK k)) := by
  unfold subaeroretLeg
  rw [evalResidL_total p k hk]
  dsimp only
  rw [searchLoopL_total p k hk]
  dsimp only
  simp only [subaeroretNew]
  have hi : initWith p (evalResid p (forceK k) (aot550nm p.iaots0)) =
      initState p (forceK k) := rfl
  rw [hi]
  by_cases h1 : (searchLoop p (forceK k) (initState p (forceK k))).iaot = 1
  · rw [if_pos h1, if_pos h1]
  · rw [if_neg h1, if_neg h1, evalResidRefineL_total p k hk]
    rfl

/-- C9: the legacy `subaeroret` returns `ERROR` (modelled `none`) as soon as
a kernel call fails — in particular a failure of its very first
`atmcorlamb2` call propagates, and an `ERROR` return implies some kernel
call fails — and it returns `SUCCESS` with exactly the outputs of the
never-failing semi-empirical `subaeroret_new` when every kernel call
succeeds; `subaeroret_new` itself has no error path (it is a total
function). -/
theorem legacy_error_propagation :
    (∀ (p : Pix) (k : ℝ → ℕ → Option ℝ), (∀ a b, (k a b).isSome = true) →
        subaeroretLeg p k = some (subaeroretNew p (forceK k))) ∧
    (∀ (p : Pix) (k : ℝ → ℕ → Option ℝ),
        k (aot550nm p.iaots0) p.iband1 = none → subaeroretLeg p k = none) ∧
    (∀ (p : Pix) (k : ℝ → ℕ → Option ℝ),
        subaeroretLeg p k = none → ∃ a b, k a b = none) := by
  refine ⟨subaeroretLeg_total, ?_, ?_⟩
  · intro p k hnone
    have h0 : evalResidL p k (aot550nm p.iaots0) = none := by
      unfold evalResidL
      rw [hnone]
    unfold subaeroretLeg
    rw [h0]
  · intro p k hnone
    by_contra hex
    push_neg at hex
    have hk : ∀ a b, (k a b).isSome = true := by
      intro a b
      exact Option.ne_none_iff_isSome.mp (hex a b)
    rw [subaeroretLeg_total p k hk] at hnone
    exact Option.some_ne_none _ hnone

end

end LaSRC
